import Mathlib

/-!
Verification of the bank-statement parsing pipeline (HDFC / Kotak / ICICI
parsers and the parser factory) against its design specification.

Modelling conventions, stated once here:

* JavaScript strings are modelled by Lean `String`; the handful of string
  primitives the source uses (`trim`, `split`, `replace(/\s+/g,' ')`,
  `replace(/,/g,'')`, `toUpperCase`) are re-implemented below over the
  character list of the string, restricted to the ASCII whitespace classes
  that occur in OCR text.
* The monetary tokens the parsers consume are produced by the regexes
  `[\d,]+\.\d{2}` (HDFC, Kotak), so every parsed number is an exact multiple
  of a hundredth.  We therefore model `parseFloat` of such tokens exactly as
  an integer number of cents (`centsOf`), and the source's `< 0.01` tolerance
  becomes `< 1` cent.  Where a general `parseFloat` is needed (ICICI), it is
  modelled as `jsParseFloat : String → Option ℚ`, with `none` standing for
  `NaN` (exponent notation never occurs in the parsers' inputs and is not
  modelled).
* The regexes used by `categorizeTransactions` / `parseTransactionLine` are
  implemented as explicit character-list matchers that follow the JavaScript
  backtracking order (greedy `\s*`, lazy `(.+?)`), so the captured groups
  agree with the source for every line, not only well-formed ones.
* `cleanOCROutput` (the record merger) in the source closes over the pattern
  table returned by `getPatterns()`; it is modelled as a fold parameterised
  by the classification predicates (transaction / header / personal-info /
  continuation / plausible-data), exactly mirroring the control flow of the
  index-based loops, including re-processing of the line on which the inner
  collection loop stops.
-/

/-- Whitespace class of JavaScript `\s` / `String.prototype.trim`, restricted
to the ASCII characters that occur in the OCR text. -/
def isWs (c : Char) : Bool :=
  c = ' ' || c = '\t' || c = '\n' || c = '\r' || c = '\x0b' || c = '\x0c'

/-- Model of JavaScript `String.prototype.trim`. -/
def jsTrim (s : String) : String :=
  ⟨((s.data.dropWhile isWs).reverse.dropWhile isWs).reverse⟩

/-- Collapse every maximal whitespace run to a single space, the effect of
`replace(/\s+/g, ' ')`. -/
def collapseWs : List Char → List Char
  | [] => []
  | [c] => if isWs c then [' '] else [c]
  | c :: c2 :: r =>
    if isWs c then
      (if isWs c2 then collapseWs (c2 :: r) else ' ' :: collapseWs (c2 :: r))
    else c :: collapseWs (c2 :: r)

/-- Model of `text.replace(/\s+/g, ' ').trim()` (the parsers'
`normalizeWhitespace`). -/
def normWs (s : String) : String :=
  jsTrim ⟨collapseWs s.data⟩

/-- A string has a solid (non-whitespace) character. -/
def hasSolid (l : List Char) : Bool :=
  l.any (fun c => !isWs c)

/-- Split a character list at every occurrence of `sep`, keeping empty
segments, as JavaScript `split(sep)` does. -/
def splitOnCharAux (sep : Char) : List Char → List (List Char)
  | [] => [[]]
  | c :: r =>
    if c = sep then [] :: splitOnCharAux sep r
    else
      match splitOnCharAux sep r with
      | h :: t => (c :: h) :: t
      | [] => [[c]]

/-- Model of JavaScript `s.split('\n')`. -/
def jsSplitNl (s : String) : List String :=
  (splitOnCharAux '\n' s.data).map String.mk

/-- Model of JavaScript `s.split('|')`. -/
def jsSplitPipe (s : String) : List String :=
  (splitOnCharAux '|' s.data).map String.mk

/-- Split at maximal whitespace runs, the behaviour of JavaScript
`s.split(/\s+/)` (a leading or trailing run contributes an empty token). -/
def splitWsAux : List Char → List (List Char)
  | [] => [[]]
  | c :: r =>
    if isWs c then
      match r with
      | [] => [] :: [[]]
      | c2 :: _ =>
        if isWs c2 then splitWsAux r else [] :: splitWsAux r
    else
      match splitWsAux r with
      | h :: t => (c :: h) :: t
      | [] => [[c]]

/-- Model of JavaScript `s.split(/\s+/)`. -/
def jsSplitWs (s : String) : List String :=
  (splitWsAux s.data).map String.mk

/-- Model of `s.replace(/,/g, '')`. -/
def stripCommas (s : String) : String :=
  ⟨s.data.filter (fun c => c ≠ ',')⟩

/-- Decimal digit character. -/
def digitChar (d : ℕ) : Char :=
  if d = 0 then '0' else if d = 1 then '1' else if d = 2 then '2'
  else if d = 3 then '3' else if d = 4 then '4' else if d = 5 then '5'
  else if d = 6 then '6' else if d = 7 then '7' else if d = 8 then '8'
  else '9'

/-- Decimal digits of a natural number (fuelled, most significant first). -/
def natToCharsAux : ℕ → ℕ → List Char
  | 0, _ => []
  | fuel + 1, n =>
    if n < 10 then [digitChar n]
    else natToCharsAux fuel (n / 10) ++ [digitChar (n % 10)]

/-- Decimal representation of a natural number. -/
def natToChars (n : ℕ) : List Char :=
  natToCharsAux (n + 1) n

/-- Model of `x.toFixed(2)` for a non-negative amount held as `n` cents. -/
def formatCents (n : ℕ) : String :=
  ⟨natToChars (n / 100) ++ ('.' :: [digitChar (n / 10 % 10), digitChar (n % 10)])⟩

/-- Numeric value of a list of decimal digit characters. -/
def digitsToNat (l : List Char) : ℕ :=
  l.foldl (fun n c => 10 * n + (c.toNat - 48)) 0

/-- Exact cents value of a currency token matched by `[\d,]+\.\d{2}`:
the effect of `parseFloat(tok.replace(/,/g, ''))`, scaled by 100. -/
def centsOf (s : String) : ℤ :=
  let cs := s.data.filter (fun c => c ≠ ',')
  let ip := cs.takeWhile Char.isDigit
  match cs.drop ip.length with
  | '.' :: a :: b :: _ =>
    (digitsToNat ip : ℤ) * 100 + 10 * ((a.toNat : ℤ) - 48) + ((b.toNat : ℤ) - 48)
  | _ => (digitsToNat ip : ℤ) * 100

/-- Model of JavaScript `parseFloat` on the decimal literals the parsers see:
optional sign, integer digits, optional fraction; `none` models `NaN`
(exponent notation never occurs in these inputs and is not modelled). -/
def jsMagnitude (cs2 : List Char) : Option ℚ :=
  let ip := cs2.takeWhile Char.isDigit
  let fp := match cs2.drop ip.length with
    | '.' :: r => r.takeWhile Char.isDigit
    | _ => []
  if ip.isEmpty && fp.isEmpty then none
  else some (Rat.divInt (digitsToNat (ip ++ fp) : ℤ) ((Nat.pow 10 fp.length : ℕ) : ℤ))

/-- Unsigned then signed assembly of the literal: a leading sign character is
skipped, a leading minus negates the magnitude.  (The magnitude ip.fp is the
integer read off the concatenated digits divided by ten to the number of
fraction digits.) -/
def jsParseFloat (s : String) : Option ℚ :=
  let cs := s.data.dropWhile isWs
  let cs2 := if cs.head? == some '-' || cs.head? == some '+' then cs.tail else cs
  (jsMagnitude cs2).map (fun m => if cs.head? == some '-' then Rat.neg m else m)

/-- ASCII upper-casing of one character, as `toUpperCase` acts on the bank
codes passed to the factory. -/
def upChar (c : Char) : Char :=
  if 'a' ≤ c && c ≤ 'z' then Char.ofNat (c.toNat - 32) else c

/-- Model of JavaScript `s.toUpperCase()` on ASCII input. -/
def jsToUpper (s : String) : String :=
  ⟨s.data.map upChar⟩

/-- Join a list of strings with a separator, as `Array.prototype.join`. -/
def joinSep (sep : String) : List String → String
  | [] => ""
  | [x] => x
  | x :: y :: t => x ++ sep ++ joinSep sep (y :: t)

/-- Greedy match of one currency token `[\d,]+\.\d{2}` at the head of the
input: maximal run of digits/commas, a dot, exactly two digits.  Returns the
matched characters and the remainder.  (The run is followed by a mandatory
dot, so the greedy run never needs to backtrack.) -/
def parseAmount (l : List Char) : Option (List Char × List Char) :=
  let run := l.takeWhile (fun c => c.isDigit || c = ',')
  if run.isEmpty then none
  else
    match l.drop run.length with
    | '.' :: a :: b :: r =>
      if a.isDigit && b.isDigit then some (run ++ ('.' :: [a, b]), r) else none
    | _ => none

/-- Match `^\d{2}/\d{2}/\d{2}` (the HDFC date anchor); returns the eight
matched characters and the remainder. -/
def hdfcDate : List Char → Option (List Char × List Char)
  | a :: b :: '/' :: c :: d :: '/' :: e :: f :: r =>
    if a.isDigit && b.isDigit && c.isDigit && d.isDigit && e.isDigit && f.isDigit then
      some ([a, b, '/', c, d, '/', e, f], r)
    else none
  | _ => none

/-- Match `^\d{2}-\d{2}-\d{4}` (the Kotak date anchor). -/
def kotakDate : List Char → Option (List Char × List Char)
  | a :: b :: '-' :: c :: d :: '-' :: e :: f :: g :: h :: r =>
    if a.isDigit && b.isDigit && c.isDigit && d.isDigit && e.isDigit && f.isDigit
        && g.isDigit && h.isDigit then
      some ([a, b, '-', c, d, '-', e, f, g, h], r)
    else none
  | _ => none

/-- Continuation of the HDFC categorize regex after the lazy description
group: `\s*\|\s*([\d,]+\.\d{2})\s+([\d,]+\.\d{2})$`.  All quantifiers here
are deterministic (a pipe or digit can only follow the full whitespace run). -/
def hdfcTail (l : List Char) : Option (List Char × List Char) :=
  match l.dropWhile isWs with
  | '|' :: r =>
    match parseAmount (r.dropWhile isWs) with
    | some (amt, r2) =>
      let ws := r2.takeWhile isWs
      if ws.isEmpty then none
      else
        match parseAmount (r2.drop ws.length) with
        | some (bal, r3) => if r3.isEmpty then some (amt, bal) else none
        | none => none
    | none => none
  | _ => none

/-- Continuation of the Kotak categorize regex after the lazy description
group: `\s*\|\s*([\d,]+\.\d{2})\((Cr|Dr)\)` (not anchored at the end).
Returns the amount token and whether the marker was `Cr`. -/
def kotakTail (l : List Char) : Option (List Char × Bool) :=
  match l.dropWhile isWs with
  | '|' :: r =>
    match parseAmount (r.dropWhile isWs) with
    | some (amt, r2) =>
      match r2 with
      | '(' :: 'C' :: 'r' :: ')' :: _ => some (amt, true)
      | '(' :: 'D' :: 'r' :: ')' :: _ => some (amt, false)
      | _ => none
    | none => none
  | _ => none

/-- Lazy `(.+?)` search: try descriptions of increasing length (at least one
character) until the tail matcher succeeds on the remainder, the expansion
order of a lazy group in a JavaScript regex. -/
def descSearch {α : Type} (tail : List Char → Option α) :
    List Char → List Char → Option (List Char × α)
  | _, [] => none
  | acc, c :: r =>
    match tail r with
    | some v => some (acc ++ [c], v)
    | none => descSearch tail (acc ++ [c]) r

/-- Match `\s*(.+?)` followed by `tail`, starting right after the first pipe:
the greedy `\s*` is tried from its maximal extent downwards, and for each
extent the lazy group grows from one character, exactly the JavaScript
backtracking order. -/
def lazyGroup {α : Type} (tail : List Char → Option α) (m : List Char) :
    Option (List Char × α) :=
  let w := (m.takeWhile isWs).length
  (List.range (w + 1)).findSome? (fun j => descSearch tail [] (m.drop (w - j)))

/-- Capture groups of the HDFC simplified-line regex
`^(\d{2}/\d{2}/\d{2})\s*\|\s*(.+?)\s*\|\s*([\d,]+\.\d{2})\s+([\d,]+\.\d{2})$`. -/
structure HRec where
  date : String
  desc : String
  amt : String
  bal : String
deriving DecidableEq

/-- Model of `line.match(/^(\d{2}\/\d{2}\/\d{2})\s*\|\s*(.+?)\s*\|\s*([\d,]+\.\d{2})\s+([\d,]+\.\d{2})$/)`,
the per-line parse used by `HDFCParser.categorizeTransactions`. -/
def hdfcSimpleMatch (line : String) : Option HRec :=
  match hdfcDate line.data with
  | some (dt, rest) =>
    match rest.dropWhile isWs with
    | '|' :: m =>
      match lazyGroup hdfcTail m with
      | some (desc, amt, bal) => some ⟨⟨dt⟩, ⟨desc⟩, ⟨amt⟩, ⟨bal⟩⟩
      | none => none
    | _ => none
  | none => none

/-- Capture groups of the Kotak categorize regex. -/
structure KRec where
  date : String
  desc : String
  amt : String
  isCr : Bool
deriving DecidableEq

/-- Model of `line.match(/^(\d{2}-\d{2}-\d{4})\s*\|\s*(.+?)\s*\|\s*([\d,]+\.\d{2})\((Cr|Dr)\)/)`,
the per-line parse used by `KotakParser.categorizeTransactions`. -/
def kotakMatch (line : String) : Option KRec :=
  match kotakDate line.data with
  | some (dt, rest) =>
    match rest.dropWhile isWs with
    | '|' :: m =>
      match lazyGroup kotakTail m with
      | some (desc, amt, cr) => some ⟨⟨dt⟩, ⟨desc⟩, ⟨amt⟩, cr⟩
      | none => none
    | _ => none
  | none => none

example :
    hdfcSimpleMatch "01/01/24 | UPI PAYMENT | 1,500.00 10,250.00"
      = some ⟨"01/01/24", "UPI PAYMENT", "1,500.00", "10,250.00"⟩ := by decide

example : hdfcSimpleMatch "01/01/2024 | X | 1.00 2.00" = none := by decide

example : centsOf "1,500.00" = 150000 := by decide

example :
    kotakMatch "01-02-2024 | RENT | 12,000.00(Dr) junk"
      = some ⟨"01-02-2024", "RENT", "12,000.00", false⟩ := by decide

/-- Direction of the first record (`i = 0`) in
`HDFCParser.categorizeTransactions`: look ahead to line 1; if it parses,
compare the balance drop to the next record's amount (tolerance one cent) and
require the current balance to be the higher one, yielding CREDIT, otherwise
DEBIT; with no parsable next line the direction is UNKNOWN.  Amounts are in
exact cents. -/
def hdfcTypeFirst (lines : List String) (curBal : ℤ) : String :=
  match lines[1]? with
  | none => "UNKNOWN"
  | some nl =>
    match hdfcSimpleMatch (jsTrim nl) with
    | none => "UNKNOWN"
    | some nr =>
      if |curBal - centsOf nr.bal - centsOf nr.amt| < 1 ∧ centsOf nr.bal < curBal then
        "CREDIT"
      else "DEBIT"

/-- Direction of a record with `0 < i` in `HDFCParser.categorizeTransactions`:
reconcile against the previous line's balance; whichever of the debit/credit
reconstructions is strictly closer and within one cent wins, otherwise fall
back to the sign of the balance change.  An unparsable previous line yields
UNKNOWN. -/
def hdfcTypeLater (lines : List String) (i : ℕ) (curAmt curBal : ℤ) : String :=
  match lines[i-1]? with
  | none => "UNKNOWN"
  | some pl =>
    match hdfcSimpleMatch (jsTrim pl) with
    | none => "UNKNOWN"
    | some pr =>
      let pb := centsOf pr.bal
      let dD := |pb - curAmt - curBal|
      let dC := |pb + curAmt - curBal|
      if dD < dC ∧ dD < 1 then "DEBIT"
      else if dC < dD ∧ dC < 1 then "CREDIT"
      else if curBal < pb then "DEBIT" else "CREDIT"

/-- The four output fields (date, description, amount in cents, type) that
`HDFCParser.categorizeTransactions` computes for line `i` of its (blank-
filtered) line list, or `none` when the line does not match the simplified
format. -/
def hdfcCatFields (lines : List String) (i : ℕ) :
    Option (String × String × ℕ × String) :=
  match hdfcSimpleMatch (jsTrim (lines[i]?.getD "")) with
  | none => none
  | some r =>
    let a := centsOf r.amt
    let b := centsOf r.bal
    let ty := if i = 0 then hdfcTypeFirst lines b else hdfcTypeLater lines i a b
    some (r.date, r.desc, a.natAbs, ty)

/-- The line `HDFCParser.categorizeTransactions` appends for index `i`: the
reformatted categorized record, or the (trimmed) line itself when it cannot
be parsed. -/
def hdfcCatLine (lines : List String) (i : ℕ) : String :=
  match hdfcCatFields lines i with
  | none => jsTrim (lines[i]?.getD "")
  | some (d, ds, n, ty) => d ++ " | " ++ ds ++ " | " ++ formatCents n ++ " | " ++ ty

/-- All lines produced by `HDFCParser.categorizeTransactions` from its
blank-filtered input lines. -/
def hdfcCatLines (lines : List String) : List String :=
  (List.range lines.length).map (hdfcCatLine lines)

/-- Model of `HDFCParser.categorizeTransactions`: empty-ish input returns
the empty string, otherwise the per-line results joined by a blank line. -/
def hdfcCategorize (simplifiedText : String) : String :=
  if jsTrim simplifiedText = "" then ""
  else
    joinSep "\n\n"
      (hdfcCatLines ((jsSplitNl simplifiedText).filter (fun l => jsTrim l ≠ "")))

example :
    hdfcCatLines
        ["01/01/24 | OPEN | 500.00 1000.00",
         "02/01/24 | W | 100.00 900.00",
         "03/01/24 | D | 150.00 1050.00"]
      = ["01/01/24 | OPEN | 500.00 | CREDIT",
         "02/01/24 | W | 100.00 | DEBIT",
         "03/01/24 | D | 150.00 | CREDIT"] := by decide

/-- The (date, raw description, amount, type) fields that
`ICICIParser.categorizeTransactions` computes for one simplified line, or
`none` when the line fails the stage's shape (fewer than three pipe parts, or
fewer than three whitespace-separated monetary tokens).  The description is
the field before the noise-removal rewrite, which touches neither amount nor
type and is not modelled. -/
structure IRec where
  date : String
  descRaw : String
  amount : String
  ty : String
deriving DecidableEq

/-- One line of `ICICIParser.categorizeTransactions`: split at pipes, split
the third part at whitespace, then decide direction from which of the
withdrawal/deposit columns is positive while the other is exactly zero
(`parseFloat` comparisons; `NaN` fails every comparison). -/
def iciciCatLine (line : String) : Option IRec :=
  let parts := jsSplitPipe line
  if parts.length < 3 then none
  else
    let date := jsTrim (parts[0]?.getD "")
    let desc := jsTrim (parts[1]?.getD "")
    let amounts := jsSplitWs (jsTrim (parts[2]?.getD ""))
    if amounts.length < 3 then none
    else
      let w := amounts[0]?.getD ""
      let d := amounts[1]?.getD ""
      let wn := jsParseFloat (stripCommas w)
      let dn := jsParseFloat (stripCommas d)
      let wPos := match wn with | some q => decide (0 < q) | none => false
      let wZero := match wn with | some q => decide (q = 0) | none => false
      let dPos := match dn with | some q => decide (0 < q) | none => false
      let dZero := match dn with | some q => decide (q = 0) | none => false
      if wPos && dZero then some ⟨date, desc, w, "DEBIT"⟩
      else if dPos && wZero then some ⟨date, desc, d, "CREDIT"⟩
      else some ⟨date, desc, "0.00", "UNKNOWN"⟩

/-- All records `ICICIParser.categorizeTransactions` emits for a text. -/
def iciciCatRecs (simplifiedText : String) : List IRec :=
  (jsSplitNl simplifiedText).filterMap iciciCatLine

/-- The record `KotakParser.categorizeTransactions` emits for one line:
a match of its transaction regex with the `(Cr)`/`(Dr)` marker translated to
CREDIT/DEBIT, or `none` for a non-matching (skipped) line. -/
def kotakCatRec (line : String) : Option KRec :=
  match kotakMatch line with
  | none => none
  | some r => some ⟨r.date, jsTrim r.desc, r.amt, r.isCr⟩

/-- All records `KotakParser.categorizeTransactions` emits for a text
(blank lines filtered first, as in the source). -/
def kotakCatRecs (simplifiedText : String) : List KRec :=
  ((jsSplitNl simplifiedText).filter (fun l => jsTrim l ≠ "")).filterMap kotakCatRec

/-- Maximal number of complete `,\d{3}` groups at the head of the input. -/
def groupCount : List Char → ℕ
  | ',' :: a :: b :: c :: r =>
    if a.isDigit && b.isDigit && c.isDigit then groupCount r + 1 else 0
  | _ => 0

/-- Consume `g` complete `,\d{3}` groups, returning them and the remainder. -/
def takeGroups : ℕ → List Char → List Char × List Char
  | 0, l => ([], l)
  | g + 1, ',' :: a :: b :: c :: r =>
    let (x, rest) := takeGroups g r
    (',' :: a :: b :: c :: x, rest)
  | _ + 1, l => ([], l)

/-- Match `\d{1,3}(?:,\d{3})*\.\d{2}` at the head of the input with the
JavaScript backtracking order: the leading digit group from its greedy
maximum downwards; the comma groups are deterministic because a dot can only
follow the maximal run of groups. -/
def matchCurAt (cs : List Char) : Option (List Char × List Char) :=
  let dmax := min 3 (cs.takeWhile Char.isDigit).length
  (List.range dmax).findSome? (fun j =>
    let k := dmax - j
    let rest := cs.drop k
    let (gs, r2) := takeGroups (groupCount rest) rest
    match r2 with
    | '.' :: a :: b :: r3 =>
      if a.isDigit && b.isDigit then some (cs.take k ++ gs ++ ('.' :: [a, b]), r3)
      else none
    | _ => none)

/-- Fuelled scan for every non-overlapping leftmost match of the currency
regex, resuming after each match, as a global regex does. -/
def extractCurAux : ℕ → List Char → List (List Char)
  | 0, _ => []
  | _ + 1, [] => []
  | fuel + 1, c :: r =>
    match matchCurAt (c :: r) with
    | some (m, rest) => m :: extractCurAux fuel rest
    | none => extractCurAux fuel r

/-- Model of `BaseParser.extractCurrencyAmounts`:
`text.match(/(\d{1,3}(?:,\d{3})*\.\d{2})/g) || []`. -/
def extractCurrencyAmounts (s : String) : List String :=
  (extractCurAux s.data.length s.data).map String.mk

/-- The fields `HDFCParser.parseTransactionLine` keeps of a merged record:
the anchored date and the last two currency tokens (amount, then balance).
`none` models the dropped record (no date anchor, or fewer than two currency
tokens).  The serialized form also carries a noise-cleaned description,
which no claim concerns and which is not modelled. -/
structure HSimp where
  date : String
  amt : String
  bal : String
deriving DecidableEq

/-- Model of the accept/drop logic and field selection of
`HDFCParser.parseTransactionLine`. -/
def hdfcParseRec (s : String) : Option HSimp :=
  let n := normWs s
  match hdfcDate n.data with
  | none => none
  | some (dt, _) =>
    let cur := extractCurrencyAmounts n
    if cur.length < 2 then none
    else some ⟨⟨dt⟩, (cur[cur.length - 2]?).getD "", (cur[cur.length - 1]?).getD ""⟩

/-- The records kept by `HDFCParser.cleanOCROutputSimplified`: blank lines
skipped, then one parsed record per line that survives
`parseTransactionLine`. -/
def hdfcSimplifiedRecs (rawText : String) : List HSimp :=
  ((jsSplitNl rawText).filter (fun l => jsTrim l ≠ "")).filterMap hdfcParseRec

example :
    extractCurrencyAmounts "UPI 1,234.56 then 99.00 x" = ["1,234.56", "99.00"] := by
  decide

example : hdfcParseRec "NODATE 100.00 200.00" = none := by decide

example :
    hdfcParseRec "01/02/24 | FOO 1,000.00  2,500.00"
      = some ⟨"01/02/24", "1,000.00", "2,500.00"⟩ := by decide

/-- One step of the `HDFCParser.cleanOCROutput` scan, parameterised by the
classification predicates of the pattern table (transaction, header,
personal-info, continuation, plausible-transaction-data).  The state is the
records pushed so far together with the transaction text currently being
collected, if any.  While collecting, a blank, transaction or header line
stops the record exactly as the inner loop's break does, and the stopping
line is then handled as the outer loop would handle it (headers and
personal-info lines are skipped, a clean transaction line starts the next
record); an accepted continuation line is appended with no separator
(`transactionText += nextLine`). -/
def hdfcMergeStep (tr hd pe co lk : String → Bool) :
    List String × Option String → String → List String × Option String
  | (out, some a), raw =>
    let line := jsTrim raw
    if line == "" || tr line || hd line then
      (out ++ [a],
        if line != "" && tr line && !hd line && !pe line then some line else none)
    else if co line || (lk line && decide (line.length < 100)) then
      (out, some (a ++ line))
    else (out ++ [a], none)
  | (out, none), raw =>
    let line := jsTrim raw
    if line == "" then (out, none)
    else if hd line || pe line then (out, none)
    else if tr line then (out, some line)
    else (out, none)

/-- Close the HDFC merge state: a record still being collected at the end of
input is pushed. -/
def hdfcFinish : List String × Option String → List String
  | (out, some a) => out ++ [a]
  | (out, none) => out

/-- The list of merged records `HDFCParser.cleanOCROutput` pushes (the
source then joins them with a blank line). -/
def hdfcMergedRecords (tr hd pe co lk : String → Bool) (rawText : String) :
    List String :=
  hdfcFinish ((jsSplitNl rawText).foldl (hdfcMergeStep tr hd pe co lk) ([], none))

/-- What `KotakParser.cleanOCROutput` pushes for a finished accumulator:
the whitespace-normalized text, provided it is non-empty. -/
def kotakEmit (a : String) : List String :=
  if normWs a != "" then [normWs a] else []

/-- One step of the `KotakParser.cleanOCROutput` scan; same control flow as
the HDFC merger, but an accepted line is appended after a single space
(`transactionText += ' ' + nextLine`), the plausible-data heuristic is the
`hasTransactionElements` check with a 150-character cap, and the record is
whitespace-normalized when pushed. -/
def kotakMergeStep (tr hd pe co he : String → Bool) :
    List String × Option String → String → List String × Option String
  | (out, some a), raw =>
    let line := jsTrim raw
    if line == "" || tr line || hd line then
      (out ++ kotakEmit a,
        if line != "" && tr line && !hd line && !pe line then some line else none)
    else if co line || (he line && decide (line.length < 150)) then
      (out, some (a ++ " " ++ line))
    else (out ++ kotakEmit a, none)
  | (out, none), raw =>
    let line := jsTrim raw
    if line == "" then (out, none)
    else if hd line || pe line then (out, none)
    else if tr line then (out, some line)
    else (out, none)

/-- Close the Kotak merge state. -/
def kotakFinish : List String × Option String → List String
  | (out, some a) => out ++ kotakEmit a
  | (out, none) => out

/-- The list of merged records `KotakParser.cleanOCROutput` pushes. -/
def kotakMergedRecords (tr hd pe co he : String → Bool) (rawText : String) :
    List String :=
  kotakFinish ((jsSplitNl rawText).foldl (kotakMergeStep tr hd pe co he) ([], none))

/-- A line that begins a merged record: non-blank after trimming, matching
the transaction pattern, and matching neither a header nor a personal-info
pattern. -/
def mergeStartP (tr hd pe : String → Bool) (l : String) : Bool :=
  jsTrim l != "" && tr (jsTrim l) && !hd (jsTrim l) && !pe (jsTrim l)

/-- The three registered statement parsers. -/
inductive BankParser
  | hdfc
  | kotak
  | icici
deriving DecidableEq

/-- Model of the factory `getParser` of `components/parsers/index.js`:
an empty code or a code whose upper-casing is not registered throws
(modelled as `Except.error` carrying the message). -/
def getParser (docCode : String) : Except String BankParser :=
  if docCode = "" then Except.error ("Document code cannot be empty.")
  else
    match jsToUpper docCode with
    | "HDFC" => Except.ok BankParser.hdfc
    | "KOTAK" => Except.ok BankParser.kotak
    | "ICICI" => Except.ok BankParser.icici
    | _ => Except.error ("Parser not implemented for code: " ++ docCode)

example : getParser "hdfc" = Except.ok BankParser.hdfc := by rfl

example : getParser "SBI" = Except.error ("Parser not implemented for code: SBI") := by
  rfl

example :
    hdfcMergedRecords (fun s => s == "T1" || s == "T2") (fun _ => false)
      (fun _ => false) (fun s => s == "C1") (fun _ => false)
      "T1\nC1\njunk\nT2" = ["T1C1", "T2"] := by decide

lemma mem_dropWhile_of_neg {p : Char → Bool} {x : Char} :
    ∀ {l : List Char}, x ∈ l → p x = false → x ∈ l.dropWhile p
  | [], h, _ => by cases h
  | c :: t, h, hx => by
    by_cases hc : p c = true
    · rw [List.dropWhile_cons_of_pos hc]
      rcases List.mem_cons.mp h with rfl | ht
      · rw [hx] at hc; cases hc
      · exact mem_dropWhile_of_neg ht hx
    · rw [List.dropWhile_cons_of_neg hc]
      exact h

lemma dropWhile_head_false {p : Char → Bool} :
    ∀ {l : List Char} {c : Char} {t : List Char}, l.dropWhile p = c :: t → p c = false
  | [], _, _, h => by cases h
  | a :: r, c, t, h => by
    by_cases ha : p a = true
    · rw [List.dropWhile_cons_of_pos ha] at h
      exact dropWhile_head_false h
    · rw [List.dropWhile_cons_of_neg ha] at h
      cases h
      exact Bool.eq_false_iff.mpr ha

lemma jsTrim_eq_empty_iff (s : String) :
    jsTrim s = "" ↔ hasSolid s.data = false := by
  constructor
  · intro h
    rw [jsTrim] at h
    have h2 : ((s.data.dropWhile isWs).reverse.dropWhile isWs).reverse = [] := by
      have := congrArg String.data h
      simpa using this
    rw [List.reverse_eq_nil_iff, List.dropWhile_eq_nil_iff] at h2
    rw [hasSolid]
    by_contra hs
    rw [Bool.not_eq_false, List.any_eq_true] at hs
    obtain ⟨c, hc, hcw⟩ := hs
    rw [Bool.not_eq_true'] at hcw
    have hc2 : c ∈ s.data.dropWhile isWs := mem_dropWhile_of_neg hc hcw
    have hc3 : c ∈ (s.data.dropWhile isWs).reverse := List.mem_reverse.mpr hc2
    have := h2 c hc3
    rw [hcw] at this
    cases this
  · intro h
    rw [hasSolid] at h
    have hall : ∀ c ∈ s.data, isWs c = true := by
      intro c hc
      by_contra hcw
      rw [Bool.not_eq_true] at hcw
      have : s.data.any (fun c => !isWs c) = true :=
        List.any_eq_true.mpr ⟨c, hc, by rw [hcw]; rfl⟩
      rw [h] at this
      cases this
    have h1 : s.data.dropWhile isWs = [] := List.dropWhile_eq_nil_iff.mpr hall
    rw [jsTrim, h1]
    rfl

lemma jsTrim_ne_empty_iff (s : String) :
    jsTrim s ≠ "" ↔ hasSolid s.data = true := by
  rw [Ne, jsTrim_eq_empty_iff]
  cases h : hasSolid s.data <;> simp

lemma hasSolid_jsTrim (s : String) (h : jsTrim s ≠ "") :
    hasSolid (jsTrim s).data = true := by
  rcases hl : (s.data.dropWhile isWs).reverse.dropWhile isWs with _ | ⟨c, t⟩
  · exfalso
    apply h
    show (⟨((s.data.dropWhile isWs).reverse.dropWhile isWs).reverse⟩ : String) = ""
    rw [hl]
    rfl
  · have hc : isWs c = false := dropWhile_head_false hl
    show hasSolid ((s.data.dropWhile isWs).reverse.dropWhile isWs).reverse = true
    rw [hl, hasSolid, List.any_eq_true]
    refine ⟨c, by simp, ?_⟩
    rw [hc]
    rfl

lemma collapseWs_solid :
    ∀ {l : List Char}, hasSolid l = true → hasSolid (collapseWs l) = true
  | [], h => by cases h
  | [c], h => by
    have hc : isWs c = false := by
      cases hw : isWs c
      · rfl
      · rw [hasSolid, List.any_cons, List.any_nil, Bool.or_false, hw] at h
        cases h
    simp [collapseWs, hc, hasSolid]
  | c :: c2 :: r, h => by
    by_cases hc : isWs c = true
    · have hr : hasSolid (c2 :: r) = true := by
        rw [hasSolid, List.any_cons] at h
        rcases Bool.or_eq_true_iff.mp h with h1 | h1
        · rw [hc] at h1; cases h1
        · exact h1
      have ih := collapseWs_solid hr
      by_cases hc2 : isWs c2 = true
      · simpa [collapseWs, hc, hc2] using ih
      · have : hasSolid (' ' :: collapseWs (c2 :: r)) = true := by
          rw [hasSolid, List.any_cons]
          rw [hasSolid] at ih
          simp [ih]
        simpa [collapseWs, hc, hc2] using this
    · rw [Bool.not_eq_true] at hc
      have : hasSolid (c :: collapseWs (c2 :: r)) = true := by
        rw [hasSolid, List.any_cons, hc]
        simp
      simpa [collapseWs, hc] using this

lemma normWs_ne_empty (s : String) (h : hasSolid s.data = true) : normWs s ≠ "" := by
  rw [normWs, jsTrim_ne_empty_iff]
  exact collapseWs_solid h

lemma hdfcFinish_length (out : List String) (acc : Option String) :
    (hdfcFinish (out, acc)).length = out.length + (if acc.isSome then 1 else 0) := by
  cases acc <;> simp [hdfcFinish]

lemma kotakEmit_solid (a : String) (h : hasSolid a.data = true) :
    kotakEmit a = [normWs a] := by
  rw [kotakEmit]
  have := normWs_ne_empty a h
  simp [this]

lemma hdfc_fold_count (tr hd pe co lk : String → Bool) :
    ∀ (lines : List String) (out : List String) (acc : Option String),
      (hdfcFinish (lines.foldl (hdfcMergeStep tr hd pe co lk) (out, acc))).length
        = (hdfcFinish (out, acc)).length + lines.countP (mergeStartP tr hd pe) := by
  intro lines
  induction lines with
  | nil => intro out acc; simp
  | cons l rest ih =>
    intro out acc
    rw [List.foldl_cons, List.countP_cons]
    cases acc with
    | none =>
      by_cases h1 : (jsTrim l == "") = true
      · have hs : mergeStartP tr hd pe l = false := by
          simp only [mergeStartP, bne, h1]
          rfl
        simp only [hdfcMergeStep, h1, if_true, Bool.or_eq_true]
        rw [ih, hs]
        simp
      · rw [Bool.not_eq_true] at h1
        by_cases h2 : (hd (jsTrim l) || pe (jsTrim l)) = true
        · have hs : mergeStartP tr hd pe l = false := by
            rcases Bool.or_eq_true_iff.mp h2 with h3 | h3 <;>
              simp [mergeStartP, h3]
          simp only [hdfcMergeStep, h1, h2, if_true, Bool.false_eq_true, if_false]
          rw [ih, hs]
          simp
        · rw [Bool.not_eq_true] at h2
          by_cases h3 : tr (jsTrim l) = true
          · have hhd : hd (jsTrim l) = false := by
              cases hw : hd (jsTrim l)
              · rfl
              · rw [hw] at h2; simp at h2
            have hpe : pe (jsTrim l) = false := by
              cases hw : pe (jsTrim l)
              · rfl
              · rw [hw] at h2; simp at h2
            have hs : mergeStartP tr hd pe l = true := by
              simp [mergeStartP, bne, h1, h3, hhd, hpe]
            simp only [hdfcMergeStep, h1, h2, h3, Bool.false_eq_true, if_false, if_true]
            rw [ih, hs]
            simp [hdfcFinish_length]
            omega
          · rw [Bool.not_eq_true] at h3
            have hs : mergeStartP tr hd pe l = false := by
              simp [mergeStartP, h3]
            simp only [hdfcMergeStep, h1, h2, h3, Bool.false_eq_true, if_false]
            rw [ih, hs]
            simp
    | some a =>
      by_cases c1 : (jsTrim l == "" || tr (jsTrim l) || hd (jsTrim l)) = true
      · by_cases c2 :
            (jsTrim l != "" && tr (jsTrim l) && !hd (jsTrim l) && !pe (jsTrim l)) = true
        · have hs : mergeStartP tr hd pe l = true := c2
          have hstep :
              hdfcMergeStep tr hd pe co lk (out, some a) l
                = (out ++ [a], some (jsTrim l)) := by
            simp only [hdfcMergeStep, c1, if_true]
            rw [if_pos c2]
          rw [hstep, ih, hs]
          simp [hdfcFinish_length]
          omega
        · rw [Bool.not_eq_true] at c2
          have hs : mergeStartP tr hd pe l = false := c2
          have hstep :
              hdfcMergeStep tr hd pe co lk (out, some a) l = (out ++ [a], none) := by
            simp only [hdfcMergeStep, c1, if_true]
            rw [if_neg]
            rw [c2]
            simp
          rw [hstep, ih, hs]
          simp [hdfcFinish_length]
      · rw [Bool.not_eq_true] at c1
        have htr : tr (jsTrim l) = false := by
          cases hw : tr (jsTrim l)
          · rfl
          · rw [hw] at c1; simp at c1
        have hs : mergeStartP tr hd pe l = false := by
          simp [mergeStartP, htr]
        by_cases c2 :
            (co (jsTrim l) || (lk (jsTrim l) && decide ((jsTrim l).length < 100))) = true
        · have hstep :
              hdfcMergeStep tr hd pe co lk (out, some a) l
                = (out, some (a ++ jsTrim l)) := by
            simp only [hdfcMergeStep, c1, Bool.false_eq_true, if_false, c2, if_true]
          rw [hstep, ih, hs]
          simp [hdfcFinish_length]
        · rw [Bool.not_eq_true] at c2
          have hstep :
              hdfcMergeStep tr hd pe co lk (out, some a) l = (out ++ [a], none) := by
            simp only [hdfcMergeStep, c1, Bool.false_eq_true, if_false, c2]
          rw [hstep, ih, hs]
          simp [hdfcFinish_length]

lemma kotakFinish_length (out : List String) (acc : Option String)
    (hinv : ∀ a, acc = some a → hasSolid a.data = true) :
    (kotakFinish (out, acc)).length = out.length + (if acc.isSome then 1 else 0) := by
  cases acc with
  | none => simp [kotakFinish]
  | some a =>
    rw [kotakFinish, kotakEmit_solid a (hinv a rfl)]
    simp

lemma kotak_fold_count (tr hd pe co he : String → Bool) :
    ∀ (lines : List String) (out : List String) (acc : Option String),
      (∀ a, acc = some a → hasSolid a.data = true) →
      (kotakFinish (lines.foldl (kotakMergeStep tr hd pe co he) (out, acc))).length
        = (kotakFinish (out, acc)).length + lines.countP (mergeStartP tr hd pe) := by
  intro lines
  induction lines with
  | nil => intro out acc _; simp
  | cons l rest ih =>
    intro out acc hinv
    have hinvN : ∀ a : String, (none : Option String) = some a → hasSolid a.data = true := by
      intro a ha; cases ha
    have hinvS : (jsTrim l == "") = false →
        ∀ b : String, some (jsTrim l) = some b → hasSolid b.data = true := by
      intro h1 b hb
      cases hb
      exact hasSolid_jsTrim l (beq_eq_false_iff_ne.mp h1)
    rw [List.foldl_cons, List.countP_cons]
    cases acc with
    | none =>
      by_cases h1 : (jsTrim l == "") = true
      · have hs : mergeStartP tr hd pe l = false := by
          simp only [mergeStartP, bne, h1]
          rfl
        simp only [kotakMergeStep, h1, if_true]
        rw [ih _ _ hinvN, hs]
        simp
      · rw [Bool.not_eq_true] at h1
        by_cases h2 : (hd (jsTrim l) || pe (jsTrim l)) = true
        · have hs : mergeStartP tr hd pe l = false := by
            rcases Bool.or_eq_true_iff.mp h2 with h3 | h3 <;>
              simp [mergeStartP, h3]
          simp only [kotakMergeStep, h1, h2, if_true, Bool.false_eq_true, if_false]
          rw [ih _ _ hinvN, hs]
          simp
        · rw [Bool.not_eq_true] at h2
          by_cases h3 : tr (jsTrim l) = true
          · have hhd : hd (jsTrim l) = false := by
              cases hw : hd (jsTrim l)
              · rfl
              · rw [hw] at h2; simp at h2
            have hpe : pe (jsTrim l) = false := by
              cases hw : pe (jsTrim l)
              · rfl
              · rw [hw] at h2; simp at h2
            have hs : mergeStartP tr hd pe l = true := by
              simp [mergeStartP, bne, h1, h3, hhd, hpe]
            simp only [kotakMergeStep, h1, h2, h3, Bool.false_eq_true, if_false, if_true]
            rw [ih _ _ (hinvS h1), hs]
            rw [kotakFinish_length _ _ (hinvS h1), kotakFinish_length _ _ hinvN]
            simp
            omega
          · rw [Bool.not_eq_true] at h3
            have hs : mergeStartP tr hd pe l = false := by
              simp [mergeStartP, h3]
            simp only [kotakMergeStep, h1, h2, h3, Bool.false_eq_true, if_false]
            rw [ih _ _ hinvN, hs]
            simp
    | some a =>
      have ha : hasSolid a.data = true := hinv a rfl
      have hemit : kotakEmit a = [normWs a] := kotakEmit_solid a ha
      by_cases c1 : (jsTrim l == "" || tr (jsTrim l) || hd (jsTrim l)) = true
      · by_cases c2 :
            (jsTrim l != "" && tr (jsTrim l) && !hd (jsTrim l) && !pe (jsTrim l)) = true
        · have hs : mergeStartP tr hd pe l = true := c2
          have h1 : (jsTrim l == "") = false := by
            cases hb : (jsTrim l == "")
            · rfl
            · exfalso
              have hx := c2
              simp only [Bool.and_eq_true, bne, hb] at hx
              exact absurd hx.1.1.1 (by decide)
          have hstep :
              kotakMergeStep tr hd pe co he (out, some a) l
                = (out ++ kotakEmit a, some (jsTrim l)) := by
            simp only [kotakMergeStep, c1, if_true]
            rw [if_pos c2]
          rw [hstep, ih _ _ (hinvS h1), hs]
          rw [kotakFinish_length _ _ (hinvS h1), kotakFinish_length _ _ hinv]
          rw [hemit]
          simp
          omega
        · rw [Bool.not_eq_true] at c2
          have hs : mergeStartP tr hd pe l = false := c2
          have hstep :
              kotakMergeStep tr hd pe co he (out, some a) l
                = (out ++ kotakEmit a, none) := by
            simp only [kotakMergeStep, c1, if_true]
            rw [if_neg]
            rw [c2]
            simp
          rw [hstep, ih _ _ hinvN, hs]
          rw [kotakFinish_length _ _ hinvN, kotakFinish_length _ _ hinv]
          rw [hemit]
          simp
      · rw [Bool.not_eq_true] at c1
        have htr : tr (jsTrim l) = false := by
          cases hw : tr (jsTrim l)
          · rfl
          · rw [hw] at c1; simp at c1
        have hs : mergeStartP tr hd pe l = false := by
          simp [mergeStartP, htr]
        by_cases c2 :
            (co (jsTrim l) || (he (jsTrim l) && decide ((jsTrim l).length < 150))) = true
        · have hsolid2 : hasSolid (a ++ " " ++ jsTrim l).data = true := by
            rw [String.data_append, String.data_append]
            rw [hasSolid, List.any_append, List.any_append]
            rw [hasSolid] at ha
            simp [ha]
          have hinvA : ∀ b : String, some (a ++ " " ++ jsTrim l) = some b →
              hasSolid b.data = true := by
            intro b hb
            cases hb
            exact hsolid2
          have hstep :
              kotakMergeStep tr hd pe co he (out, some a) l
                = (out, some (a ++ " " ++ jsTrim l)) := by
            simp only [kotakMergeStep, c1, Bool.false_eq_true, if_false, c2, if_true]
          rw [hstep, ih _ _ hinvA, hs]
          rw [kotakFinish_length _ _ hinvA, kotakFinish_length _ _ hinv]
          simp
        · rw [Bool.not_eq_true] at c2
          have hstep :
              kotakMergeStep tr hd pe co he (out, some a) l
                = (out ++ kotakEmit a, none) := by
            simp only [kotakMergeStep, c1, Bool.false_eq_true, if_false, c2]
          rw [hstep, ih _ _ hinvN, hs]
          rw [kotakFinish_length _ _ hinvN, kotakFinish_length _ _ hinv]
          rw [hemit]
          simp

lemma mem_of_head?_eq {c : Char} : ∀ {l : List Char}, l.head? = some c → c ∈ l
  | [], h => by cases h
  | a :: t, h => by
    rw [List.head?_cons] at h
    cases h
    exact List.mem_cons_self _ _

lemma mem_takeWhile_pred {p : Char → Bool} :
    ∀ {l : List Char} {x : Char}, x ∈ l.takeWhile p → p x = true
  | [], x, h => by cases h
  | c :: t, x, h => by
    by_cases hc : p c = true
    · rw [List.takeWhile_cons_of_pos hc] at h
      rcases List.mem_cons.mp h with rfl | ht
      · exact hc
      · exact mem_takeWhile_pred ht
    · rw [List.takeWhile_cons_of_neg hc] at h
      cases h

lemma digitChar_ne_minus (d : ℕ) : digitChar d ≠ '-' := by
  rw [digitChar]
  repeat' split
  all_goals decide

lemma natToCharsAux_chars :
    ∀ (f n : ℕ), ∀ c ∈ natToCharsAux f n, ∃ d, c = digitChar d := by
  intro f
  induction f with
  | zero => intro n c hc; cases hc
  | succ f ih =>
    intro n c hc
    rw [natToCharsAux] at hc
    by_cases hn : n < 10
    · rw [if_pos hn] at hc
      rcases List.mem_singleton.mp hc with rfl
      exact ⟨n, rfl⟩
    · rw [if_neg hn] at hc
      rcases List.mem_append.mp hc with h | h
      · exact ih _ c h
      · rcases List.mem_singleton.mp h with rfl
        exact ⟨n % 10, rfl⟩

lemma formatCents_no_minus (n : ℕ) : '-' ∉ (formatCents n).data := by
  intro h
  rw [formatCents] at h
  rcases List.mem_append.mp h with h1 | h1
  · obtain ⟨d, hd⟩ := natToCharsAux_chars _ _ _ h1
    exact digitChar_ne_minus d hd.symm
  · rcases List.mem_cons.mp h1 with h2 | h2
    · exact absurd h2 (by decide)
    · rcases List.mem_cons.mp h2 with h3 | h3
      · exact digitChar_ne_minus _ h3.symm
      · rcases List.mem_singleton.mp h3 with h4
        exact digitChar_ne_minus _ h4.symm

lemma jsMagnitude_nonneg (cs2 : List Char) (m : ℚ)
    (h : jsMagnitude cs2 = some m) : 0 ≤ m := by
  rw [jsMagnitude] at h
  split at h
  · cases h
  · rw [Option.some_inj] at h
    rw [← h]
    exact Rat.divInt_nonneg (Int.natCast_nonneg _) (Int.natCast_nonneg _)

lemma jsParseFloat_nonneg (s : String) (q : ℚ)
    (hq : jsParseFloat s = some q) (hm : '-' ∉ s.data) : 0 ≤ q := by
  simp only [jsParseFloat] at hq
  have hneg : ((s.data.dropWhile isWs).head? == some '-') = false := by
    cases hh : (s.data.dropWhile isWs).head? with
    | none => rfl
    | some c =>
      by_cases hc : c = '-'
      · subst hc
        exfalso
        apply hm
        exact (List.dropWhile_sublist isWs).subset (mem_of_head?_eq hh)
      · simp [hc]
  rw [Option.map_eq_some'] at hq
  obtain ⟨m, hm2, hf⟩ := hq
  rw [hneg] at hf
  simp only [Bool.false_eq_true, if_false] at hf
  rw [← hf]
  exact jsMagnitude_nonneg _ _ hm2

lemma length_filterMap_eq_countP {α β : Type} (f : α → Option β) :
    ∀ l : List α, (l.filterMap f).length = l.countP (fun x => (f x).isSome) := by
  intro l
  induction l with
  | nil => rfl
  | cons x t ih =>
    rw [List.countP_cons]
    cases hf : f x with
    | none => simp [List.filterMap_cons, hf, ih]
    | some b => simp [List.filterMap_cons, hf, ih]

lemma hdfcCatLines_getElem (lines : List String) (i : ℕ) (hi : i < lines.length) :
    (hdfcCatLines lines)[i]? = some (hdfcCatLine lines i) := by
  rw [hdfcCatLines, List.getElem?_map, List.getElem?_range hi]
  rfl

lemma parseAmount_chars {l amt r : List Char} (h : parseAmount l = some (amt, r)) :
    ∀ c ∈ amt, c.isDigit = true ∨ c = ',' ∨ c = '.' := by
  rw [parseAmount] at h
  split at h
  · cases h
  · split at h
    · split at h
      · rw [Option.some_inj, Prod.mk.injEq] at h
        obtain ⟨h4, -⟩ := h
        rw [← h4]
        intro c hc
        rcases List.mem_append.mp hc with h1 | h1
        · have := mem_takeWhile_pred h1
          rcases Bool.or_eq_true_iff.mp this with hd | hd
          · exact Or.inl hd
          · exact Or.inr (Or.inl (by simpa using hd))
        · rename_i a b r3 hab
          rcases List.mem_cons.mp h1 with rfl | h2
          · exact Or.inr (Or.inr rfl)
          · rcases List.mem_cons.mp h2 with rfl | h3
            · exact Or.inl (Bool.and_eq_true_iff.mp hab).1
            · rcases List.mem_singleton.mp h3 with rfl
              exact Or.inl (Bool.and_eq_true_iff.mp hab).2
      · cases h
    · cases h

lemma parseAmount_no_minus {l amt r : List Char} (h : parseAmount l = some (amt, r)) :
    '-' ∉ amt := by
  intro hm
  rcases parseAmount_chars h _ hm with h1 | h1 | h1
  · exact absurd h1 (by decide)
  · exact absurd h1 (by decide)
  · exact absurd h1 (by decide)

/-- Claim C9: requesting a parser for an unregistered variant code (for
example SBI) raises an error and produces no parser: for every string whose
upper-casing is none of HDFC, KOTAK, ICICI — which includes the empty code —
`getParser` returns an error rather than defaulting to some parser. -/
theorem getParser_unknown_code_errors (s : String)
    (h1 : jsToUpper s ≠ "HDFC") (h2 : jsToUpper s ≠ "KOTAK")
    (h3 : jsToUpper s ≠ "ICICI") :
    ∃ e, getParser s = Except.error e := by
  by_cases hs : s = ""
  · subst hs
    exact ⟨"Document code cannot be empty.", rfl⟩
  · rw [getParser, if_neg hs]
    split
    · rename_i hx; exact absurd hx h1
    · rename_i hx; exact absurd hx h2
    · rename_i hx; exact absurd hx h3
    · exact ⟨_, rfl⟩

/-- Witness for C9 at the concrete unregistered code SBI. -/
theorem getParser_unknown_code_errors_witness :
    jsToUpper "SBI" ≠ "HDFC" ∧ (∃ e, getParser "SBI" = Except.error e) ∧
      (∃ e, getParser "" = Except.error e) :=
  ⟨by decide,
   getParser_unknown_code_errors "SBI" (by decide) (by decide) (by decide),
   getParser_unknown_code_errors "" (by decide) (by decide) (by decide)⟩

/-- Claim C10: variant selection is case-insensitive: `getParser s` succeeds
exactly when the upper-casing of `s` is HDFC, KOTAK or ICICI, and then
returns the same parser variant as `getParser` applied to the upper-cased
code. -/
theorem getParser_case_insensitive (s : String) :
    ((∃ k, getParser s = Except.ok k) ↔
      (jsToUpper s = "HDFC" ∨ jsToUpper s = "KOTAK" ∨ jsToUpper s = "ICICI")) ∧
    (∀ k, getParser s = Except.ok k → getParser (jsToUpper s) = Except.ok k) := by
  constructor
  · constructor
    · rintro ⟨k, hk⟩
      by_cases hs : s = ""
      · subst hs
        cases hk
      · rw [getParser, if_neg hs] at hk
        split at hk
        · rename_i hx; exact Or.inl hx
        · rename_i hx; exact Or.inr (Or.inl hx)
        · rename_i hx; exact Or.inr (Or.inr hx)
        · cases hk
    · intro h
      have hs : s ≠ "" := by
        intro hs
        subst hs
        rcases h with h | h | h
        · exact absurd h (by decide)
        · exact absurd h (by decide)
        · exact absurd h (by decide)
      rw [getParser, if_neg hs]
      rcases h with h | h | h <;> rw [h]
      · exact ⟨BankParser.hdfc, rfl⟩
      · exact ⟨BankParser.kotak, rfl⟩
      · exact ⟨BankParser.icici, rfl⟩
  · intro k hk
    by_cases hs : s = ""
    · subst hs
      cases hk
    · rw [getParser, if_neg hs] at hk
      split at hk
      · rename_i hx
        cases hk
        rw [hx]
        rfl
      · rename_i hx
        cases hk
        rw [hx]
        rfl
      · rename_i hx
        cases hk
        rw [hx]
        rfl
      · cases hk

/-- Witness for C10: the lower-case code hdfc selects the same parser as the
upper-case code HDFC. -/
theorem getParser_case_insensitive_witness :
    getParser "hdfc" = Except.ok BankParser.hdfc ∧
      getParser (jsToUpper "hdfc") = Except.ok BankParser.hdfc :=
  ⟨by rfl, (getParser_case_insensitive "hdfc").2 BankParser.hdfc (by rfl)⟩

/-- Claim C4: header classification takes priority over continuation
classification: a line matching both a header pattern and a continuation
pattern is treated as a header by both record mergers — while accumulating
it terminates the record without being appended, and while idle it is
skipped. -/
theorem header_priority_over_continuation
    (tr hd pe co lk he : String → Bool) (l a : String) (out : List String)
    (hhd : hd (jsTrim l) = true) (hco : co (jsTrim l) = true) :
    hdfcMergeStep tr hd pe co lk (out, some a) l = (out ++ [a], none) ∧
    hdfcMergeStep tr hd pe co lk (out, none) l = (out, none) ∧
    kotakMergeStep tr hd pe co he (out, some a) l = (out ++ kotakEmit a, none) ∧
    kotakMergeStep tr hd pe co he (out, none) l = (out, none) := by
  have hc1 : (jsTrim l == "" || tr (jsTrim l) || hd (jsTrim l)) = true := by
    rw [hhd]
    simp
  refine ⟨?_, ?_, ?_, ?_⟩
  · simp only [hdfcMergeStep, hc1, if_true]
    rw [if_neg]
    rw [hhd]
    simp
  · by_cases hb : (jsTrim l == "") = true
    · simp only [hdfcMergeStep, hb, if_true]
    · simp only [hdfcMergeStep, hb, Bool.false_eq_true, if_false, hhd, Bool.true_or,
        if_true]
  · simp only [kotakMergeStep, hc1, if_true]
    rw [if_neg]
    rw [hhd]
    simp
  · by_cases hb : (jsTrim l == "") = true
    · simp only [kotakMergeStep, hb, if_true]
    · simp only [kotakMergeStep, hb, Bool.false_eq_true, if_false, hhd, Bool.true_or,
        if_true]

/-- Witness for C4 with an explicit registry in which the line H matches both
a header pattern and a continuation pattern. -/
theorem header_priority_over_continuation_witness :
    hdfcMergeStep (fun _ => false) (fun s => s == "H") (fun _ => false)
        (fun s => s == "H") (fun _ => false) (["R"], some "A") "H" = (["R", "A"], none) ∧
    hdfcMergeStep (fun _ => false) (fun s => s == "H") (fun _ => false)
        (fun s => s == "H") (fun _ => false) (["R"], none) "H" = (["R"], none) ∧
    kotakMergeStep (fun _ => false) (fun s => s == "H") (fun _ => false)
        (fun s => s == "H") (fun _ => false) (["R"], some "A") "H"
      = (["R"] ++ kotakEmit "A", none) ∧
    kotakMergeStep (fun _ => false) (fun s => s == "H") (fun _ => false)
        (fun s => s == "H") (fun _ => false) (["R"], none) "H" = (["R"], none) :=
  header_priority_over_continuation (fun _ => false) (fun s => s == "H")
    (fun _ => false) (fun s => s == "H") (fun _ => false) (fun _ => false)
    "H" "A" ["R"] (by decide) (by decide)

/-- Counterexample to claim C8 as stated: in the HDFC merger an accepted
continuation line is concatenated to the accumulator with no separating
space (`transactionText += nextLine`), so the merged record for a
transaction line T followed by its continuation C is TC, not the
space-joined T C. -/
theorem merge_append_no_space_counterexample :
    hdfcMergedRecords (fun s => s == "T") (fun _ => false) (fun _ => false)
        (fun s => s == "C") (fun _ => false) "T\nC" = ["TC"] ∧
    ("TC" : String) ≠ "T C" := ⟨by decide, by decide⟩

/-- Claim C8 as amended: while accumulating, an accepted continuation line is
appended to the accumulator directly with no separator in the HDFC merger,
and joined by a single space in the Kotak merger; the Kotak merger
additionally normalizes the record's whitespace when it is emitted. -/
theorem merge_append_behavior
    (tr hd pe co lk he : String → Bool) (l a : String) (out : List String)
    (hne : (jsTrim l == "") = false) (htr : tr (jsTrim l) = false)
    (hhd : hd (jsTrim l) = false) (hco : co (jsTrim l) = true) :
    hdfcMergeStep tr hd pe co lk (out, some a) l = (out, some (a ++ jsTrim l)) ∧
    kotakMergeStep tr hd pe co he (out, some a) l = (out, some (a ++ " " ++ jsTrim l)) ∧
    (hasSolid a.data = true → kotakFinish (out, some a) = out ++ [normWs a]) := by
  have hc1 : (jsTrim l == "" || tr (jsTrim l) || hd (jsTrim l)) = false := by
    rw [hne, htr, hhd]
    rfl
  refine ⟨?_, ?_, ?_⟩
  · simp only [hdfcMergeStep, hc1, Bool.false_eq_true, if_false, hco, Bool.true_or,
      if_true]
  · simp only [kotakMergeStep, hc1, Bool.false_eq_true, if_false, hco, Bool.true_or,
      if_true]
  · intro hsld
    rw [kotakFinish, kotakEmit_solid a hsld]

/-- Witness for the amended C8. -/
theorem merge_append_behavior_witness :
    hdfcMergeStep (fun _ => false) (fun _ => false) (fun _ => false)
        (fun s => s == "C") (fun _ => false) ([], some "T") "C" = ([], some "TC") ∧
    kotakMergeStep (fun _ => false) (fun _ => false) (fun _ => false)
        (fun s => s == "C") (fun _ => false) ([], some "T") "C"
      = ([], some "T C") ∧
    kotakFinish ([], some "A  B") = ["A B"] := by
  have h := merge_append_behavior (fun _ => false) (fun _ => false) (fun _ => false)
    (fun s => s == "C") (fun _ => false) (fun _ => false) "C" "T" []
    (by decide) (by decide) (by decide) (by decide)
  refine ⟨h.1, h.2.1, ?_⟩
  have h2 := merge_append_behavior (fun _ => false) (fun _ => false) (fun _ => false)
    (fun s => s == "C") (fun _ => false) (fun _ => false) "C" "A  B" []
    (by decide) (by decide) (by decide) (by decide)
  rw [h2.2.2 (by decide)]
  decide

/-- Claim C3: for an input whose lines contain N transaction-start lines
(non-blank lines that match the variant's transaction pattern and match no
header or personal-info pattern), both record mergers emit exactly N merged
records — one per transaction-start line, regardless of how many
continuation lines follow each and with no interference from any other line
(and zero transaction-start lines give zero records).  This holds with no
hypothesis at all, so in particular under the claim's no-interleaved-headers
condition. -/
theorem merge_completeness (tr hd pe co lk he : String → Bool) (rawText : String) :
    (hdfcMergedRecords tr hd pe co lk rawText).length
        = (jsSplitNl rawText).countP (mergeStartP tr hd pe) ∧
    (kotakMergedRecords tr hd pe co he rawText).length
        = (jsSplitNl rawText).countP (mergeStartP tr hd pe) := by
  constructor
  · rw [hdfcMergedRecords, hdfc_fold_count]
    simp [hdfcFinish]
  · rw [kotakMergedRecords,
      kotak_fold_count tr hd pe co he _ _ none (by intro a ha; cases ha)]
    simp [kotakFinish]

/-- Witness for C3: two transaction-start lines with continuation and junk
lines interleaved yield exactly two merged records in both mergers. -/
theorem merge_completeness_witness :
    (hdfcMergedRecords (fun s => s == "T1" || s == "T2") (fun _ => false)
        (fun _ => false) (fun s => s == "C1") (fun _ => false)
        "T1\nC1\n\nzzz\nT2\nC1").length = 2 ∧
    (kotakMergedRecords (fun s => s == "T1" || s == "T2") (fun _ => false)
        (fun _ => false) (fun s => s == "C1") (fun _ => false)
        "T1\nC1\n\nzzz\nT2\nC1").length = 2 := by
  have h := merge_completeness (fun s => s == "T1" || s == "T2") (fun _ => false)
    (fun _ => false) (fun s => s == "C1") (fun _ => false) (fun _ => false)
    "T1\nC1\n\nzzz\nT2\nC1"
  refine ⟨?_, ?_⟩
  · rw [h.1]
    decide
  · rw [h.2]
    decide

/-- Claim C1: HDFC balance reconciliation for records with a parsed
predecessor: DEBIT when only the debit reconstruction
`balance[i-1] - amount[i]` is within one cent of `balance[i]`, CREDIT when
only the credit reconstruction is, and the sign-of-balance-change fallback
when neither is; on the concrete balances 1000.00, 900.00, 1050.00 with
amounts 100.00 and 150.00, record 1 resolves to DEBIT and record 2 to
CREDIT. -/
theorem hdfc_balance_reconciliation
    (lines : List String) (i : ℕ) (li pl : String) (cur prev : HRec)
    (hi : 0 < i)
    (hcur : lines[i]? = some li)
    (hm : hdfcSimpleMatch (jsTrim li) = some cur)
    (hprev : lines[i-1]? = some pl)
    (hpm : hdfcSimpleMatch (jsTrim pl) = some prev) :
    ((|centsOf prev.bal - centsOf cur.amt - centsOf cur.bal| < 1 ∧
      ¬ |centsOf prev.bal + centsOf cur.amt - centsOf cur.bal| < 1) →
        hdfcTypeLater lines i (centsOf cur.amt) (centsOf cur.bal) = "DEBIT") ∧
    ((|centsOf prev.bal + centsOf cur.amt - centsOf cur.bal| < 1 ∧
      ¬ |centsOf prev.bal - centsOf cur.amt - centsOf cur.bal| < 1) →
        hdfcTypeLater lines i (centsOf cur.amt) (centsOf cur.bal) = "CREDIT") ∧
    ((¬ |centsOf prev.bal - centsOf cur.amt - centsOf cur.bal| < 1 ∧
      ¬ |centsOf prev.bal + centsOf cur.amt - centsOf cur.bal| < 1) →
        hdfcTypeLater lines i (centsOf cur.amt) (centsOf cur.bal)
          = (if centsOf cur.bal < centsOf prev.bal then "DEBIT" else "CREDIT")) ∧
    (hdfcCatFields lines i
      = some (cur.date, cur.desc, (centsOf cur.amt).natAbs,
          hdfcTypeLater lines i (centsOf cur.amt) (centsOf cur.bal))) ∧
    hdfcCatLines
        ["01/01/24 | OPEN | 500.00 1000.00",
         "02/01/24 | W | 100.00 900.00",
         "03/01/24 | D | 150.00 1050.00"]
      = ["01/01/24 | OPEN | 500.00 | CREDIT",
         "02/01/24 | W | 100.00 | DEBIT",
         "03/01/24 | D | 150.00 | CREDIT"] := by
  have hT : hdfcTypeLater lines i (centsOf cur.amt) (centsOf cur.bal)
      = (if |centsOf prev.bal - centsOf cur.amt - centsOf cur.bal|
              < |centsOf prev.bal + centsOf cur.amt - centsOf cur.bal| ∧
            |centsOf prev.bal - centsOf cur.amt - centsOf cur.bal| < 1 then "DEBIT"
         else if |centsOf prev.bal + centsOf cur.amt - centsOf cur.bal|
              < |centsOf prev.bal - centsOf cur.amt - centsOf cur.bal| ∧
            |centsOf prev.bal + centsOf cur.amt - centsOf cur.bal| < 1 then "CREDIT"
         else if centsOf cur.bal < centsOf prev.bal then "DEBIT" else "CREDIT") := by
    simp only [hdfcTypeLater, hprev, hpm]
  refine ⟨?_, ?_, ?_, ?_, by decide⟩
  · rintro ⟨h1, h2⟩
    rw [hT, if_pos ⟨lt_of_lt_of_le h1 (not_lt.mp h2), h1⟩]
  · rintro ⟨h1, h2⟩
    rw [hT, if_neg, if_pos ⟨lt_of_lt_of_le h1 (not_lt.mp h2), h1⟩]
    rintro ⟨h3, h4⟩
    exact h2 h4
  · rintro ⟨h1, h2⟩
    rw [hT, if_neg, if_neg]
    · rintro ⟨h3, h4⟩
      exact h2 h4
    · rintro ⟨h3, h4⟩
      exact h1 h4
  · rw [hdfcCatFields, hcur]
    simp only [Option.getD_some, hm, if_neg (Nat.pos_iff_ne_zero.mp hi)]

/-- Witness for C1 at record 1 of the concrete three-record sequence. -/
theorem hdfc_balance_reconciliation_witness :
    hdfcTypeLater
        ["01/01/24 | OPEN | 500.00 1000.00",
         "02/01/24 | W | 100.00 900.00",
         "03/01/24 | D | 150.00 1050.00"] 1 (centsOf "100.00") (centsOf "900.00")
      = "DEBIT" :=
  (hdfc_balance_reconciliation
      ["01/01/24 | OPEN | 500.00 1000.00",
       "02/01/24 | W | 100.00 900.00",
       "03/01/24 | D | 150.00 1050.00"] 1
      "02/01/24 | W | 100.00 900.00" "01/01/24 | OPEN | 500.00 1000.00"
      ⟨"02/01/24", "W", "100.00", "900.00"⟩
      ⟨"01/01/24", "OPEN", "500.00", "1000.00"⟩
      (by decide) (by rfl) (by decide) (by rfl) (by decide)).1
    ⟨by decide, by decide⟩

/-- Counterexample to claim C2 as stated: on the two-record sequence with
balances 500.00, 400.00 and record-1 amount 100.00 the HDFC lookahead
resolves record 0 to CREDIT (the code's comment agrees: a balance drop equal
to the next amount with the current balance higher is treated as evidence the
first record was a credit), not to DEBIT as the claim asserts. -/
theorem hdfc_first_record_counterexample :
    hdfcCatLines ["01/01/24 | A | 200.00 500.00", "02/01/24 | B | 100.00 400.00"]
      = ["01/01/24 | A | 200.00 | CREDIT", "02/01/24 | B | 100.00 | DEBIT"] ∧
    ("01/01/24 | A | 200.00 | CREDIT" : String) ≠ "01/01/24 | A | 200.00 | DEBIT" :=
  ⟨by decide, by decide⟩

/-- Claim C2 as amended: the first record is resolved by looking ahead to
record 1; when record 1 parses, record 0 is CREDIT exactly when the balance
drop to record 1 matches record 1's amount within one cent and record 0's
balance is the higher one, and DEBIT otherwise — so balances 500.00, 400.00
with record-1 amount 100.00 give CREDIT — and when there is no (parsable)
record 1 the direction is UNKNOWN. -/
theorem hdfc_first_record_lookahead
    (lines : List String) (l0 : String) (cur : HRec)
    (h0 : lines[0]? = some l0)
    (hm : hdfcSimpleMatch (jsTrim l0) = some cur) :
    (lines[1]? = none → hdfcTypeFirst lines (centsOf cur.bal) = "UNKNOWN") ∧
    (∀ nl, lines[1]? = some nl → hdfcSimpleMatch (jsTrim nl) = none →
        hdfcTypeFirst lines (centsOf cur.bal) = "UNKNOWN") ∧
    (∀ nl nr, lines[1]? = some nl → hdfcSimpleMatch (jsTrim nl) = some nr →
        hdfcTypeFirst lines (centsOf cur.bal)
          = (if |centsOf cur.bal - centsOf nr.bal - centsOf nr.amt| < 1 ∧
                centsOf nr.bal < centsOf cur.bal
             then "CREDIT" else "DEBIT")) ∧
    (hdfcCatFields lines 0
      = some (cur.date, cur.desc, (centsOf cur.amt).natAbs,
          hdfcTypeFirst lines (centsOf cur.bal))) := by
  refine ⟨?_, ?_, ?_, ?_⟩
  · intro h1
    simp only [hdfcTypeFirst, h1]
  · intro nl h1 h2
    simp only [hdfcTypeFirst, h1, h2]
  · intro nl nr h1 h2
    simp only [hdfcTypeFirst, h1, h2]
  · rw [hdfcCatFields, h0]
    simp only [Option.getD_some, hm, if_pos rfl, if_true]

/-- Witness for the amended C2: the concrete two-record lookahead yields
CREDIT, and a one-record sequence yields UNKNOWN. -/
theorem hdfc_first_record_lookahead_witness :
    hdfcTypeFirst ["01/01/24 | A | 200.00 500.00", "02/01/24 | B | 100.00 400.00"]
        (centsOf "500.00") = "CREDIT" ∧
    hdfcTypeFirst ["01/01/24 | A | 200.00 500.00"] (centsOf "500.00") = "UNKNOWN" := by
  constructor
  · have h := (hdfc_first_record_lookahead
        ["01/01/24 | A | 200.00 500.00", "02/01/24 | B | 100.00 400.00"]
        "01/01/24 | A | 200.00 500.00" ⟨"01/01/24", "A", "200.00", "500.00"⟩
        (by rfl) (by decide)).2.2.1
        "02/01/24 | B | 100.00 400.00" ⟨"02/01/24", "B", "100.00", "400.00"⟩
        (by rfl) (by decide)
    rw [h]
    decide
  · exact (hdfc_first_record_lookahead ["01/01/24 | A | 200.00 500.00"]
        "01/01/24 | A | 200.00 500.00" ⟨"01/01/24", "A", "200.00", "500.00"⟩
        (by rfl) (by decide)).1 (by rfl)

/-- Counterexample to claim C5 as stated: the line JUNK 100.00 200.00 carries
monetary tokens but no recognizable date, so it fails the minimum shape of
both the simplify and categorize stages; the simplify stage drops it, but
`HDFCParser.categorizeTransactions` pushes the unparsable line through
unchanged instead of excluding it from that stage's output. -/
theorem drop_shape_counterexample :
    hdfcSimpleMatch "JUNK 100.00 200.00" = none ∧
    hdfcParseRec "JUNK 100.00 200.00" = none ∧
    hdfcCategorize "JUNK 100.00 200.00" = "JUNK 100.00 200.00" ∧
    ("JUNK 100.00 200.00" : String) ≠ "" :=
  ⟨by decide, by decide, by decide, by decide⟩

/-- Claim C5 as amended: a merged record with no recognizable date or fewer
than two monetary tokens yields no provisional transaction and is excluded
from the simplify stage's output, whose length is exactly the number of
parsable lines; the ICICI and Kotak categorize stages likewise skip
shape-failing lines; but the HDFC categorize stage passes a shape-failing
line through to its output unchanged (at its own position) instead of
dropping it.  No stage throws: every model function is total and a parse
always returns the records it resolved. -/
theorem drop_on_missing_shape :
    (∀ s : String, hdfcDate (normWs s).data = none → hdfcParseRec s = none) ∧
    (∀ s : String, (extractCurrencyAmounts (normWs s)).length < 2 →
        hdfcParseRec s = none) ∧
    (∀ text : String, (hdfcSimplifiedRecs text).length
        = ((jsSplitNl text).filter (fun l => jsTrim l ≠ "")).countP
            (fun l => (hdfcParseRec l).isSome)) ∧
    (∀ (lines : List String) (i : ℕ) (l : String), lines[i]? = some l →
        hdfcSimpleMatch (jsTrim l) = none →
        (hdfcCatLines lines)[i]? = some (jsTrim l)) ∧
    (∀ l : String, (jsSplitPipe l).length < 3 → iciciCatLine l = none) ∧
    (∀ l : String, kotakMatch l = none → kotakCatRec l = none) := by
  refine ⟨?_, ?_, ?_, ?_, ?_, ?_⟩
  · intro s h
    simp only [hdfcParseRec, h]
  · intro s h
    cases hd2 : hdfcDate (normWs s).data with
    | none => simp only [hdfcParseRec, hd2]
    | some p =>
      obtain ⟨dt, rest⟩ := p
      simp only [hdfcParseRec, hd2]
      rw [if_pos h]
  · intro text
    rw [hdfcSimplifiedRecs, length_filterMap_eq_countP]
  · intro lines i l hl hm
    have hi : i < lines.length := by
      by_contra hge
      rw [List.getElem?_eq_none (Nat.le_of_not_lt hge)] at hl
      cases hl
    rw [hdfcCatLines_getElem lines i hi, hdfcCatLine, hdfcCatFields, hl]
    simp only [Option.getD_some, hm]
  · intro l h
    simp only [iciciCatLine]
    rw [if_pos h]
  · intro l h
    simp only [kotakCatRec, h]

/-- Witness for the amended C5 on concrete shape-failing inputs. -/
theorem drop_on_missing_shape_witness :
    hdfcParseRec "JUNK, 12.00 34.00" = none ∧
    hdfcParseRec "01/01/24 only 5.00" = none ∧
    (hdfcSimplifiedRecs "JUNK, 12.00 34.00\n01/02/24 | A 1.00 2.00").length = 1 ∧
    (hdfcCatLines ["garbage line"])[0]? = some "garbage line" ∧
    iciciCatLine "no pipes here" = none ∧
    kotakCatRec "not a transaction" = none := by
  refine ⟨?_, ?_, ?_, ?_, ?_, ?_⟩
  · exact drop_on_missing_shape.1 "JUNK, 12.00 34.00" (by decide)
  · exact drop_on_missing_shape.2.1 "01/01/24 only 5.00" (by decide)
  · rw [drop_on_missing_shape.2.2.1 "JUNK, 12.00 34.00\n01/02/24 | A 1.00 2.00"]
    decide
  · exact drop_on_missing_shape.2.2.2.1 ["garbage line"] 0 "garbage line"
      (by rfl) (by decide)
  · exact drop_on_missing_shape.2.2.2.2.1 "no pipes here" (by decide)
  · exact drop_on_missing_shape.2.2.2.2.2 "not a transaction" (by decide)

/-- Claim C7: for the ICICI column-position variant, on a simplified record
carrying withdrawal and deposit columns (three pipe parts, three monetary
tokens, both columns parsing to non-negative values): if exactly one column
is non-zero it determines the direction and supplies the amount (withdrawal
⇒ DEBIT, deposit ⇒ CREDIT); if both are zero or both non-zero the direction
is UNKNOWN. -/
theorem icici_column_direction
    (line : String) (w d : String) (wq dq : ℚ)
    (hparts : ¬ (jsSplitPipe line).length < 3)
    (hlen : ¬ (jsSplitWs (jsTrim ((jsSplitPipe line)[2]?.getD ""))).length < 3)
    (hw : (jsSplitWs (jsTrim ((jsSplitPipe line)[2]?.getD "")))[0]?.getD "" = w)
    (hd2 : (jsSplitWs (jsTrim ((jsSplitPipe line)[2]?.getD "")))[1]?.getD "" = d)
    (hwq : jsParseFloat (stripCommas w) = some wq)
    (hdq : jsParseFloat (stripCommas d) = some dq)
    (hw0 : 0 ≤ wq) (hd0 : 0 ≤ dq) :
    (wq ≠ 0 → dq = 0 →
        iciciCatLine line = some ⟨jsTrim ((jsSplitPipe line)[0]?.getD ""),
          jsTrim ((jsSplitPipe line)[1]?.getD ""), w, "DEBIT"⟩) ∧
    (dq ≠ 0 → wq = 0 →
        iciciCatLine line = some ⟨jsTrim ((jsSplitPipe line)[0]?.getD ""),
          jsTrim ((jsSplitPipe line)[1]?.getD ""), d, "CREDIT"⟩) ∧
    (wq = 0 → dq = 0 →
        iciciCatLine line = some ⟨jsTrim ((jsSplitPipe line)[0]?.getD ""),
          jsTrim ((jsSplitPipe line)[1]?.getD ""), "0.00", "UNKNOWN"⟩) ∧
    (wq ≠ 0 → dq ≠ 0 →
        iciciCatLine line = some ⟨jsTrim ((jsSplitPipe line)[0]?.getD ""),
          jsTrim ((jsSplitPipe line)[1]?.getD ""), "0.00", "UNKNOWN"⟩) := by
  refine ⟨?_, ?_, ?_, ?_⟩
  · intro h1 h2
    have hwpos : (0 : ℚ) < wq := lt_of_le_of_ne hw0 (Ne.symm h1)
    simp only [iciciCatLine, if_neg hparts, if_neg hlen, hw, hd2, hwq, hdq]
    have hc : (decide (0 < wq) && decide (dq = 0)) = true := by
      simp [hwpos, h2]
    rw [if_pos hc]
  · intro h1 h2
    have hdpos : (0 : ℚ) < dq := lt_of_le_of_ne hd0 (Ne.symm h1)
    simp only [iciciCatLine, if_neg hparts, if_neg hlen, hw, hd2, hwq, hdq]
    have hc1 : (decide (0 < wq) && decide (dq = 0)) = false := by
      simp [h2]
    have hc2 : (decide (0 < dq) && decide (wq = 0)) = true := by
      simp [hdpos, h2]
    rw [if_neg (by rw [hc1]; exact Bool.false_ne_true), if_pos hc2]
  · intro h1 h2
    simp only [iciciCatLine, if_neg hparts, if_neg hlen, hw, hd2, hwq, hdq]
    have hc1 : (decide (0 < wq) && decide (dq = 0)) = false := by
      simp [h1]
    have hc2 : (decide (0 < dq) && decide (wq = 0)) = false := by
      simp [h2]
    rw [if_neg (by rw [hc1]; exact Bool.false_ne_true),
      if_neg (by rw [hc2]; exact Bool.false_ne_true)]
  · intro h1 h2
    have hwpos : (0 : ℚ) < wq := lt_of_le_of_ne hw0 (Ne.symm h1)
    simp only [iciciCatLine, if_neg hparts, if_neg hlen, hw, hd2, hwq, hdq]
    have hc1 : (decide (0 < wq) && decide (dq = 0)) = false := by
      simp [h2]
    have hc2 : (decide (0 < dq) && decide (wq = 0)) = false := by
      simp [h1]
    rw [if_neg (by rw [hc1]; exact Bool.false_ne_true),
      if_neg (by rw [hc2]; exact Bool.false_ne_true)]

/-- Witness for C7: a record with withdrawal 500.00 and deposit 0.00 resolves
to DEBIT with amount 500.00. -/
theorem icici_column_direction_witness :
    iciciCatLine "01/01/2024 | SHOP | 500.00 0.00 1000.00"
      = some ⟨"01/01/2024", "SHOP", "500.00", "DEBIT"⟩ := by
  have h := (icici_column_direction "01/01/2024 | SHOP | 500.00 0.00 1000.00"
      "500.00" "0.00" 500 0 (by decide) (by decide) (by decide) (by decide)
      (by decide) (by decide) (by norm_num) (by norm_num)).1
      (by norm_num) rfl
  rw [h]
  decide

lemma kotakTail_amt_no_minus {l amt : List Char} {cr : Bool}
    (h : kotakTail l = some (amt, cr)) : '-' ∉ amt := by
  rw [kotakTail] at h
  split at h
  · rename_i r hpipe
    split at h
    · rename_i amt0 r2 hamt
      split at h
      · rw [Option.some_inj, Prod.mk.injEq] at h
        rw [← h.1]
        exact parseAmount_no_minus hamt
      · rw [Option.some_inj, Prod.mk.injEq] at h
        rw [← h.1]
        exact parseAmount_no_minus hamt
      · cases h
    · cases h
  · cases h

lemma descSearch_tail_spec {α : Type} (tail : List Char → Option α) :
    ∀ (acc l : List Char) (d : List Char) (v : α),
      descSearch tail acc l = some (d, v) → ∃ r, tail r = some v
  | _, [], _, _, h => by cases h
  | acc, c :: r, d, v, h => by
    rw [descSearch] at h
    split at h
    · rename_i v0 htail
      rw [Option.some_inj, Prod.mk.injEq] at h
      exact ⟨r, by rw [htail, h.2]⟩
    · exact descSearch_tail_spec tail (acc ++ [c]) r d v h

lemma lazyGroup_tail_spec {α : Type} (tail : List Char → Option α)
    (m : List Char) (d : List Char) (v : α)
    (h : lazyGroup tail m = some (d, v)) : ∃ r, tail r = some v := by
  rw [lazyGroup] at h
  obtain ⟨j, _, hj⟩ := List.exists_of_findSome?_eq_some h
  exact descSearch_tail_spec tail _ _ _ _ hj

lemma kotakMatch_amt_no_minus (line : String) (kr : KRec)
    (h : kotakMatch line = some kr) : '-' ∉ kr.amt.data := by
  rw [kotakMatch] at h
  split at h
  · rename_i dt rest hdate
    split at h
    · rename_i m hpipe
      split at h
      · rename_i desc amt cr hlazy
        rw [Option.some_inj] at h
        obtain ⟨r, hr⟩ := lazyGroup_tail_spec kotakTail m desc (amt, cr) hlazy
        have hnm := kotakTail_amt_no_minus hr
        rw [← h]
        exact hnm
      · cases h
    · cases h
  · cases h

lemma stripCommas_no_minus (s : String) (h : '-' ∉ s.data) :
    '-' ∉ (stripCommas s).data := by
  intro hm
  rw [stripCommas] at hm
  exact h (List.mem_of_mem_filter hm)

/-- Claim C6: for every categorized transaction produced by any variant's
`categorizeTransactions`, the amount field is non-negative — whatever value
JavaScript would parse back from the emitted amount string is at least
zero. -/
theorem categorized_amount_nonneg :
    (∀ (lines : List String) (i : ℕ) (d ds : String) (n : ℕ) (ty : String) (q : ℚ),
        hdfcCatFields lines i = some (d, ds, n, ty) →
        jsParseFloat (stripCommas (formatCents n)) = some q → 0 ≤ q) ∧
    (∀ (line : String) (r : IRec) (q : ℚ), iciciCatLine line = some r →
        jsParseFloat (stripCommas r.amount) = some q → 0 ≤ q) ∧
    (∀ (line : String) (r : KRec) (q : ℚ), kotakCatRec line = some r →
        jsParseFloat (stripCommas r.amt) = some q → 0 ≤ q) := by
  refine ⟨?_, ?_, ?_⟩
  · intro lines i d ds n ty q _ hq
    exact jsParseFloat_nonneg _ q hq (stripCommas_no_minus _ (formatCents_no_minus n))
  · intro line r q hq1 hq2
    simp only [iciciCatLine] at hq1
    split at hq1
    · cases hq1
    · split at hq1
      · cases hq1
      · split at hq1
        · rename_i hc
          rw [Option.some_inj] at hq1
          rw [← hq1] at hq2
          rcases Bool.and_eq_true_iff.mp hc with ⟨hc1, -⟩
          rcases hw : jsParseFloat (stripCommas
              ((jsSplitWs (jsTrim ((jsSplitPipe line)[2]?.getD "")))[0]?.getD "")) with
            _ | wq
          · rw [hw] at hc1
            cases hc1
          · rw [hw] at hc1 hq2
            rw [Option.some_inj] at hq2
            rw [← hq2]
            exact le_of_lt (of_decide_eq_true hc1)
        · split at hq1
          · rename_i hc
            rw [Option.some_inj] at hq1
            rw [← hq1] at hq2
            rcases Bool.and_eq_true_iff.mp hc with ⟨hc1, -⟩
            rcases hw : jsParseFloat (stripCommas
                ((jsSplitWs (jsTrim ((jsSplitPipe line)[2]?.getD "")))[1]?.getD "")) with
              _ | dq
            · rw [hw] at hc1
              cases hc1
            · rw [hw] at hc1 hq2
              rw [Option.some_inj] at hq2
              rw [← hq2]
              exact le_of_lt (of_decide_eq_true hc1)
          · rw [Option.some_inj] at hq1
            rw [← hq1] at hq2
            have hz : jsParseFloat (stripCommas "0.00") = some 0 := by decide
            rw [hz, Option.some_inj] at hq2
            rw [← hq2]
  · intro line r q hq1 hq2
    rw [kotakCatRec] at hq1
    split at hq1
    · cases hq1
    · rename_i kr hkr
      rw [Option.some_inj] at hq1
      have hnm : '-' ∉ kr.amt.data := kotakMatch_amt_no_minus line kr hkr
      rw [← hq1] at hq2
      exact jsParseFloat_nonneg _ q hq2 (stripCommas_no_minus _ hnm)

/-- Witness for C6 on concrete records of all three variants. -/
theorem categorized_amount_nonneg_witness :
    hdfcCatFields ["01/01/24 | A | 200.00 500.00"] 0
        = some ("01/01/24", "A", 20000, "UNKNOWN") ∧
    jsParseFloat (stripCommas (formatCents 20000)) = some 200 ∧ (0 : ℚ) ≤ 200 ∧
    iciciCatLine "01/01/2024 | SHOP | 500.00 0.00 1000.00"
        = some ⟨"01/01/2024", "SHOP", "500.00", "DEBIT"⟩ ∧
    jsParseFloat (stripCommas "500.00") = some 500 ∧ (0 : ℚ) ≤ 500 ∧
    kotakCatRec "01-02-2024 | RENT | 12,000.00(Dr)"
        = some ⟨"01-02-2024", "RENT", "12,000.00", false⟩ ∧
    jsParseFloat (stripCommas "12,000.00") = some 12000 ∧ (0 : ℚ) ≤ 12000 :=
  ⟨by decide, by decide,
   categorized_amount_nonneg.1 ["01/01/24 | A | 200.00 500.00"] 0
     "01/01/24" "A" 20000 "UNKNOWN" 200 (by decide) (by decide),
   by decide, by decide,
   categorized_amount_nonneg.2.1 "01/01/2024 | SHOP | 500.00 0.00 1000.00"
     ⟨"01/01/2024", "SHOP", "500.00", "DEBIT"⟩ 500 (by decide) (by decide),
   by decide, by decide,
   categorized_amount_nonneg.2.2 "01-02-2024 | RENT | 12,000.00(Dr)"
     ⟨"01-02-2024", "RENT", "12,000.00", false⟩ 12000 (by decide) (by decide)⟩
